import Mathlib

/-!
Verification development for the book-summary video generator
(`main.py`).  The program's orchestration logic is embedded shallowly:

* Python string operations (`replace`, `strip`, `lower`, `startswith`)
  are re-implemented on `List Char` so that every definition reduces in
  the kernel;
* network calls are modelled by environments `Nat → ApiAttempt` giving
  the outcome of the k-th HTTP request;
* the work-list file is a `List String` of its lines (with their
  trailing newline characters, as Python's `readlines` produces them);
* byte-level text decoding (UTF-8, windows-1252) is modelled on
  `List Nat` codepoint/byte sequences.
-/

/-! ### Python string primitives -/

/-- One step list of Python's `str.replace`: replace the leftmost
occurrences of `pat` in `s`, left to right, non-overlapping.  `fuel`
bounds the recursion; `fuel = s.length` always suffices. -/
def pyReplaceAux (pat rep : List Char) : Nat → List Char → List Char
  | 0, s => s
  | _ + 1, [] => []
  | fuel + 1, c :: rest =>
    if pat.isPrefixOf (c :: rest) then
      rep ++ pyReplaceAux pat rep fuel (List.drop pat.length (c :: rest))
    else
      c :: pyReplaceAux pat rep fuel rest

/-- Python `s.replace(pat, rep)` (all non-overlapping occurrences,
left to right).  The empty pattern is never used by the program; it is
mapped to the identity. -/
def pyReplace (s pat rep : String) : String :=
  if pat.data = [] then s
  else ⟨pyReplaceAux pat.data rep.data s.data.length s.data⟩

/-- ASCII lowercasing of a character (Python `str.lower` restricted to
the ASCII titles the program deals in). -/
def charLower (c : Char) : Char :=
  if 'A' ≤ c ∧ c ≤ 'Z' then Char.ofNat (c.toNat + 32) else c

/-- Python `s.lower()` (ASCII fragment). -/
def pyLower (s : String) : String := ⟨s.data.map charLower⟩

/-- Characters stripped by Python `str.strip()` (ASCII whitespace). -/
def isPySpace (c : Char) : Bool :=
  c = ' ' || c = '\t' || c = '\n' || c = '\r' || c = '\x0b' || c = '\x0c'

/-- Python `s.strip()`. -/
def pyStrip (s : String) : String :=
  ⟨(((s.data.dropWhile isPySpace).reverse.dropWhile isPySpace).reverse)⟩

/-- Python `s.startswith(p)`. -/
def pyStartsWith (s p : String) : Bool := p.data.isPrefixOf s.data

/-! ### Slug derivation (C5)

`main.py` computes the filesystem-safe slug with the same expression at
three sites: `text_to_speech` (line 75), `generate_book_thumbnail`
(line 139), and `process_books` (line 332):
`book_title.replace(" ", "_").replace('"', '').replace(':', '').lower()`.
Each site is transcribed separately. -/

/-- Slug expression at line 75 (`text_to_speech`). -/
def text_to_speech_slug (book_title : String) : String :=
  pyLower (pyReplace (pyReplace (pyReplace book_title " " "_") "\"" "") ":" "")

/-- Slug expression at line 139 (`generate_book_thumbnail`). -/
def generate_book_thumbnail_slug (book_title : String) : String :=
  pyLower (pyReplace (pyReplace (pyReplace book_title " " "_") "\"" "") ":" "")

/-- Slug expression at line 332 (`process_books`). -/
def process_books_slug (book_title : String) : String :=
  pyLower (pyReplace (pyReplace (pyReplace book_title " " "_") "\"" "") ":" "")

/-! ### `generate_book_summary` (lines 19–59) -/

/-- Outcome of one `requests.post` call: the request raises a
`requests.RequestException`, or returns a response with a status code
and (for status 200) the extracted message content
`response.json()['choices'][0]['message']['content']`. -/
inductive ApiAttempt where
  | raises : ApiAttempt
  | response (status : Nat) (body : String) : ApiAttempt
deriving DecidableEq, Repr

/-- Return value of `generate_book_summary`: the success path returns a
single string, the retry-exhaustion path returns the Python tuple
`("Max retries reached. Unable to generate summary.", [])`. -/
inductive SummaryReturn where
  | summary (s : String) : SummaryReturn
  | sentinel (msg : String) (attachments : List String) : SummaryReturn
deriving DecidableEq, Repr

/-- The `while attempts < max_retries` loop of `generate_book_summary`
(lines 45–59).  `env k` is the outcome of the request made when
`attempts = k`; `fuel = max_retries - attempts`.  Returns the result,
the number of requests issued, and the total `time.sleep` delay. -/
def gbsLoop (env : Nat → ApiAttempt) (delay : Nat) :
    Nat → Nat → SummaryReturn × Nat × Nat
  | 0, _ =>
    (.sentinel "Max retries reached. Unable to generate summary." [], 0, 0)
  | fuel + 1, attempts =>
    match env attempts with
    | .raises =>
      let r := gbsLoop env delay fuel (attempts + 1)
      (r.1, r.2.1 + 1, r.2.2 + delay)
    | .response status body =>
      if status = 200 then (.summary body, 1, 0)
      else
        let r := gbsLoop env delay fuel (attempts + 1)
        (r.1, r.2.1 + 1, r.2.2 + delay)

/-- `generate_book_summary(book_title, api_key, max_retries, delay)`,
with the network abstracted into `env`.  (The call in `process_books`
uses the defaults `max_retries = 3`, `delay = 2`.) -/
def generate_book_summary (env : Nat → ApiAttempt)
    (max_retries delay : Nat) : SummaryReturn × Nat × Nat :=
  gbsLoop env delay max_retries 0

/-! ### `generate_subtitles` (lines 152–189) -/

/-- Outcome of one transcription attempt: any exception, or the SRT
content returned by the API. -/
inductive SubAttempt where
  | raises : SubAttempt
  | ok (srtContent : String) : SubAttempt
deriving DecidableEq, Repr

/-- Retry loop of `generate_subtitles`.  Returns the returned path (or
`none` after exhaustion, line 189) together with the list of
`(path, content)` file writes performed. -/
def gsLoop (env : Nat → SubAttempt) (audio_file_path : String) :
    Nat → Nat → Option String × List (String × String)
  | 0, _ => (none, [])
  | fuel + 1, attempts =>
    match env attempts with
    | .raises => gsLoop env audio_file_path fuel (attempts + 1)
    | .ok srtContent =>
      let srt_file_path := pyReplace audio_file_path ".mp3" ".srt"
      (some srt_file_path, [(srt_file_path, srtContent)])

/-- `generate_subtitles(api_key, audio_file_path, max_retries, delay)`
with the network abstracted into `env`. -/
def generate_subtitles (env : Nat → SubAttempt) (audio_file_path : String)
    (max_retries : Nat) : Option String × List (String × String) :=
  gsLoop env audio_file_path max_retries 0

/-- The spec's description of the output path of `generate_subtitles`:
the sibling path with the same stem and the subtitle extension, i.e. the
'.mp3' suffix replaced by '.srt'.  (Second definition for the refinement
comparison; the code-derived path is `pyReplace path ".mp3" ".srt"`.) -/
def spec_sibling_srt_path (audio_file_path : String) : String :=
  ⟨audio_file_path.data.dropLast.dropLast.dropLast.dropLast ++ ".srt".data⟩

/-! ### Work Queue Driver: `process_books` (lines 291–374) -/

/-- Marker prefix literal `"PROCESSED:"`. -/
def markerLiteral : String := "PROCESSED:"

/-- Line 307: `line.strip().replace("PROCESSED:", "").strip()` — the
title recorded in the accumulated processed-set for a marker line. -/
def stripMarker (line : String) : String :=
  pyStrip (pyReplace (pyStrip line) "PROCESSED:" "")

/-- The selection loop of `process_books` (lines 304–318): scan the
lines in file order, accumulating the processed-set from marker lines,
skipping plain lines whose stripped title is already in the set, and
return the index and stripped title of the first remaining line (the
one the pipeline runs on), or `none` if every line is skipped.
`i` is the running index, `processed` the accumulated set. -/
def selectBook : List String → Nat → List String → Option (Nat × String)
  | [], _, _ => none
  | line :: rest, i, processed =>
    if pyStartsWith line "PROCESSED:" then
      selectBook rest (i + 1) (stripMarker line :: processed)
    else if pyStrip line ∈ processed then
      selectBook rest (i + 1) processed
    else
      some (i, pyStrip line)

/-- Recursive form of "every line is already marked processed or
duplicates an already-processed title": the loop skips every line. -/
def allDone : List String → List String → Bool
  | [], _ => true
  | line :: rest, processed =>
    if pyStartsWith line "PROCESSED:" then
      allDone rest (stripMarker line :: processed)
    else if pyStrip line ∈ processed then
      allDone rest processed
    else
      false

/-- Result of one `process_books` invocation on the work-list file.
`file` is the resulting file content (as lines); when an exception
propagates out of the invocation (`crashed = true`) the write-back at
lines 371–374 never runs and the file keeps its original content.
`pipelineRan` records whether any pipeline step was started. -/
structure PBResult where
  file : List String
  crashed : Bool
  pipelineRan : Bool
deriving DecidableEq, Repr

/-- One invocation of `process_books` (work-list behaviour).

* `summaryEnv` drives the `generate_book_summary` call (defaults
  `max_retries = 3`, `delay = 2`).
* When the summary call exhausts its retries it returns the tuple
  sentinel, and line 323 `full_summary += '...'` then raises
  `TypeError` (Python: tuple + str), aborting the invocation before
  the write-back.
* `restOk` abstracts the remaining pipeline steps (speech, thumbnail,
  subtitles, video composition, upload): `true` if they complete,
  `false` if one of them raises.
* On completion, line 367 sets line `i` to
  `f"PROCESSED: {book_title}\n"` and lines 371–374 write the lines
  back. -/
def process_books (summaryEnv : Nat → ApiAttempt) (restOk : Bool)
    (lines : List String) : PBResult :=
  match selectBook lines 0 [] with
  | none => ⟨lines, false, false⟩
  | some (i, book_title) =>
    match (generate_book_summary summaryEnv 3 2).1 with
    | .sentinel _ _ => ⟨lines, true, true⟩
    | .summary _ =>
      if restOk then
        ⟨lines.set i ("PROCESSED: " ++ book_title ++ "\n"), false, true⟩
      else
        ⟨lines, true, true⟩

/-- `N` successive invocations of `process_books` (the daily loop of
`main`), with per-invocation environments. -/
def runN (envs : Nat → Nat → ApiAttempt) (restOks : Nat → Bool)
    (lines : List String) : Nat → List String
  | 0 => lines
  | n + 1 => (process_books (envs n) (restOks n)
      (runN envs restOks lines n)).file

/-- A line bears the processed marker. -/
def isMarkedLine (line : String) : Bool := pyStartsWith line "PROCESSED:"

/-- Number of marked lines in a work-list. -/
def countMarked (lines : List String) : Nat := lines.countP isMarkedLine

/-! ### `time_to_seconds` and `create_subtitle_clips` (lines 191–209) -/

/-- A `pysrt.SubRipTime` value. -/
structure SubRipTime where
  hours : Nat
  minutes : Nat
  seconds : Nat
  milliseconds : Nat
deriving DecidableEq, Repr

/-- A subtitle cue as consumed by `create_subtitle_clips`:
`subtitle.start`, `subtitle.end` (called `stop` here, `end` being a
Lean keyword) and `subtitle.text`. -/
structure SubtitleCue where
  start : SubRipTime
  stop : SubRipTime
  text : String
deriving DecidableEq, Repr

/-- Line 191: `time_obj.hours*3600 + time_obj.minutes*60 +
time_obj.seconds + time_obj.milliseconds/1000`. -/
def time_to_seconds (t : SubRipTime) : ℚ :=
  t.hours * 3600 + t.minutes * 60 + t.seconds + t.milliseconds / 1000

/-- Horizontal position of a clip (`'center'` in the code). -/
inductive HPosition where
  | center : HPosition
deriving DecidableEq, Repr

/-- The `TextClip` built for one cue (lines 203–207), recording exactly
the attributes the code sets. -/
structure TextClipModel where
  text : String
  start : ℚ
  duration : ℚ
  posX : HPosition
  posY : ℚ
  fontsize : Nat
  font : String
  color : String
  bg_color : String
  boxWidth : ℚ
deriving DecidableEq, Repr

/-- `create_subtitle_clips(subtitles, videosize)` (lines 194–209) with
the default keyword arguments `fontsize=50, font='Arial',
color='white'`. -/
def create_subtitle_clips (subtitles : List SubtitleCue)
    (videosize : ℚ × ℚ) : List TextClipModel :=
  subtitles.map fun subtitle =>
    let start_time := time_to_seconds subtitle.start
    let end_time := time_to_seconds subtitle.stop
    let duration := end_time - start_time
    { text := subtitle.text
      start := start_time
      duration := duration
      posX := .center
      posY := videosize.2 * 4 / 5
      fontsize := 50
      font := "Arial"
      color := "white"
      bg_color := "black"
      boxWidth := videosize.1 * 3 / 4 }

/-- A clip is visible at time `t` (moviepy `set_start`/`set_duration`
semantics: visible on `[start, start + duration)`). -/
def clipVisibleAt (c : TextClipModel) (t : ℚ) : Prop :=
  c.start ≤ t ∧ t < c.start + c.duration

instance (c : TextClipModel) (t : ℚ) : Decidable (clipVisibleAt c t) :=
  inferInstanceAs (Decidable (_ ∧ _))

/-! ### Credential acquisition: `service_youtube` (lines 212–236) and
`service_google_drive` (lines 382–409) -/

/-- The observable state of a `google` credentials object. -/
structure Creds where
  valid : Bool
  expired : Bool
  refresh_token : Bool
deriving DecidableEq, Repr

/-- Result of a credential-acquisition path: the credentials handed to
`build`, whether an interactive login (`flow.run_local_server`) was
performed, and whether the credentials were persisted back to the token
file. -/
structure CredResult where
  creds : Creds
  interactive : Bool
  persisted : Bool
deriving DecidableEq, Repr

/-- `service_youtube` (lines 212–236).  `stored` is the pickled token
file content if present; `refresh` the outcome of `creds.refresh
(Request())` (`Except.error` when refresh raises); `login` the
credentials produced by `flow.run_local_server`.  Note there is no
`try`/`except` around the refresh: its exception propagates
(`Except.error`). -/
def service_youtube (stored : Option Creds) (refresh : Except Unit Creds)
    (login : Creds) : Except Unit CredResult :=
  match stored with
  | none => .ok ⟨login, true, true⟩
  | some creds =>
    if creds.valid then .ok ⟨creds, false, false⟩
    else if creds.expired && creds.refresh_token then
      match refresh with
      | .error e => .error e
      | .ok creds2 => .ok ⟨creds2, false, true⟩
    else .ok ⟨login, true, true⟩

/-- `service_google_drive` (lines 382–409).  The refresh is wrapped in
`try`/`except`, setting `creds = None` on failure, and the interactive
login runs when `creds` is `None` afterwards. -/
def service_google_drive (stored : Option Creds)
    (refresh : Except Unit Creds) (login : Creds) :
    Except Unit CredResult :=
  match stored with
  | none => .ok ⟨login, true, true⟩
  | some creds =>
    if creds.valid then .ok ⟨creds, false, false⟩
    else
      let afterRefresh : Option Creds :=
        if creds.expired && creds.refresh_token then
          match refresh with
          | .ok creds2 => some creds2
          | .error _ => none
        else some creds
      match afterRefresh with
      | none => .ok ⟨login, true, true⟩
      | some creds2 => .ok ⟨creds2, false, true⟩

/-! ### Subtitle-file decoding and parsing (C7)

`process_books` (lines 352–356) tries `pysrt.open` (default encoding)
and on `UnicodeDecodeError` falls back to `open_srt_with_encoding`
(lines 377–380), which re-reads the file as windows-1252 with invalid
bytes ignored and parses the recovered text.

Text is modelled as a sequence of Unicode codepoints (`List Nat`), a
file as a sequence of bytes (`List Nat`, each `< 0x100`). -/

/-- UTF-8 continuation byte. -/
def isCont (b : Nat) : Prop := 0x80 ≤ b ∧ b < 0xC0

instance (b : Nat) : Decidable (isCont b) :=
  inferInstanceAs (Decidable (_ ∧ _))

/-- Lead byte of a two-byte sequence (0xC0/0xC1 are overlong). -/
def isLead2 (b : Nat) : Prop := 0xC2 ≤ b ∧ b ≤ 0xDF

instance (b : Nat) : Decidable (isLead2 b) :=
  inferInstanceAs (Decidable (_ ∧ _))

/-- Valid second/third byte for a three-byte sequence with lead `b`
(0xE0 restricts `b1 ≥ 0xA0` to exclude overlongs, 0xED restricts
`b1 < 0xA0` to exclude surrogates). -/
def valid3 (b b1 b2 : Nat) : Prop :=
  ((b = 0xE0 ∧ 0xA0 ≤ b1 ∧ b1 < 0xC0) ∨
   (0xE1 ≤ b ∧ b ≤ 0xEC ∧ isCont b1) ∨
   (b = 0xED ∧ 0x80 ≤ b1 ∧ b1 < 0xA0) ∨
   (0xEE ≤ b ∧ b ≤ 0xEF ∧ isCont b1)) ∧ isCont b2

instance (b b1 b2 : Nat) : Decidable (valid3 b b1 b2) :=
  inferInstanceAs (Decidable (_ ∧ _))

/-- Valid continuation bytes for a four-byte sequence with lead `b`
(0xF0 excludes overlongs, 0xF4 caps at U+10FFFF). -/
def valid4 (b b1 b2 b3 : Nat) : Prop :=
  ((b = 0xF0 ∧ 0x90 ≤ b1 ∧ b1 < 0xC0) ∨
   (0xF1 ≤ b ∧ b ≤ 0xF3 ∧ isCont b1) ∨
   (b = 0xF4 ∧ 0x80 ≤ b1 ∧ b1 < 0x90)) ∧ isCont b2 ∧ isCont b3

instance (b b1 b2 b3 : Nat) : Decidable (valid4 b b1 b2 b3) :=
  inferInstanceAs (Decidable (_ ∧ _))

/-- Codepoint of a two-byte sequence. -/
def cp2 (b b1 : Nat) : Nat := (b - 0xC0) * 0x40 + (b1 - 0x80)

/-- Codepoint of a three-byte sequence. -/
def cp3 (b b1 b2 : Nat) : Nat :=
  (b - 0xE0) * 0x1000 + (b1 - 0x80) * 0x40 + (b2 - 0x80)

/-- Codepoint of a four-byte sequence. -/
def cp4 (b b1 b2 b3 : Nat) : Nat :=
  (b - 0xF0) * 0x40000 + (b1 - 0x80) * 0x1000 +
    (b2 - 0x80) * 0x40 + (b3 - 0x80)

/-- Decode one multi-byte UTF-8 sequence: lead byte `b` (already known
to be `≥ 0x80`), remaining bytes `bs`.  Returns the codepoint and the
unconsumed rest, or `none` if the sequence is ill-formed (as Python's
strict `utf-8` codec: truncation, stray continuation, overlong forms,
surrogates and codepoints above U+10FFFF all fail). -/
def utf8DecodeOne : Nat → List Nat → Option (Nat × List Nat)
  | _, [] => none
  | b, [b1] =>
    if isLead2 b ∧ isCont b1 then some (cp2 b b1, []) else none
  | b, [b1, b2] =>
    if isLead2 b ∧ isCont b1 then some (cp2 b b1, [b2])
    else if valid3 b b1 b2 then some (cp3 b b1 b2, [])
    else none
  | b, b1 :: b2 :: b3 :: rest =>
    if isLead2 b ∧ isCont b1 then some (cp2 b b1, b2 :: b3 :: rest)
    else if valid3 b b1 b2 then some (cp3 b b1 b2, b3 :: rest)
    else if valid4 b b1 b2 b3 then some (cp4 b b1 b2 b3, rest)
    else none

/-- Strict UTF-8 decoding loop.  `fuel` only bounds the recursion;
every step consumes at least one byte, so `fuel = bs.length` never
runs out (the `(0, _ :: _)` clause is unreachable from `utf8Decode`). -/
def utf8DecodeLoop : Nat → List Nat → Option (List Nat)
  | _, [] => some []
  | 0, _ :: _ => none
  | fuel + 1, b :: bs =>
    if b < 0x80 then
      (utf8DecodeLoop fuel bs).map (b :: ·)
    else
      match utf8DecodeOne b bs with
      | none => none
      | some (c, rest) => (utf8DecodeLoop fuel rest).map (c :: ·)

/-- Strict UTF-8 decoding (as Python's default `utf-8` codec).
`none` models `UnicodeDecodeError`. -/
def utf8Decode (bs : List Nat) : Option (List Nat) :=
  utf8DecodeLoop bs.length bs

/-- The windows-1252 codepoint of a byte in `0x80–0x9F` (for the five
bytes with no windows-1252 assignment the value is unused: see
`cp1252MapByte`). -/
def cp1252Table (b : Nat) : Nat :=
  if b = 0x80 then 0x20AC
  else if b = 0x82 then 0x201A
  else if b = 0x83 then 0x0192
  else if b = 0x84 then 0x201E
  else if b = 0x85 then 0x2026
  else if b = 0x86 then 0x2020
  else if b = 0x87 then 0x2021
  else if b = 0x88 then 0x02C6
  else if b = 0x89 then 0x2030
  else if b = 0x8A then 0x0160
  else if b = 0x8B then 0x2039
  else if b = 0x8C then 0x0152
  else if b = 0x8E then 0x017D
  else if b = 0x91 then 0x2018
  else if b = 0x92 then 0x2019
  else if b = 0x93 then 0x201C
  else if b = 0x94 then 0x201D
  else if b = 0x95 then 0x2022
  else if b = 0x96 then 0x2013
  else if b = 0x97 then 0x2014
  else if b = 0x98 then 0x02DC
  else if b = 0x99 then 0x2122
  else if b = 0x9A then 0x0161
  else if b = 0x9B then 0x203A
  else if b = 0x9C then 0x0153
  else if b = 0x9E then 0x017E
  else if b = 0x9F then 0x0178
  else b

/-- One byte under the windows-1252 codec with `errors='ignore'`:
the five unassigned bytes decode to nothing, every other byte decodes
to its windows-1252 codepoint. -/
def cp1252MapByte (b : Nat) : Option Nat :=
  if b < 0x80 then some b
  else if b = 0x81 ∨ b = 0x8D ∨ b = 0x8F ∨ b = 0x90 ∨ b = 0x9D then none
  else if b < 0xA0 then some (cp1252Table b)
  else if b < 0x100 then some b
  else none

/-- `bytes.decode('windows-1252', errors='ignore')`. -/
def decodeCp1252Ignore (bs : List Nat) : List Nat :=
  bs.filterMap cp1252MapByte

/-- Split a codepoint sequence into its lines at `'\n'` (codepoint 10).
Always returns at least one line; a non-newline character is prepended
to the first line of the split of the rest. -/
def splitNl : List Nat → List (List Nat)
  | [] => [[]]
  | c :: cs =>
    if c = 10 then [] :: splitNl cs
    else (c :: (splitNl cs).headD []) :: (splitNl cs).tail

/-- Group the lines of an SRT file into blocks: maximal runs of
non-empty lines, separated by empty lines.  Returns
`(completed blocks, currently open block)`. -/
def srtBlocksAux : List (List Nat) → List (List (List Nat)) × List (List Nat)
  | [] => ([], [])
  | l :: ls =>
    let r := srtBlocksAux ls
    if l = [] then
      if r.2 = [] then (r.1, []) else (r.2 :: r.1, [])
    else (r.1, l :: r.2)

/-- The blocks of an SRT file, in order. -/
def srtBlocks (ls : List (List Nat)) : List (List (List Nat)) :=
  if (srtBlocksAux ls).2 = [] then (srtBlocksAux ls).1
  else (srtBlocksAux ls).2 :: (srtBlocksAux ls).1

/-- ASCII digit codepoint. -/
def isDigitCp (c : Nat) : Bool := 48 ≤ c && c ≤ 57

/-- Leading run of digits of a codepoint line. -/
def takeDigitsCp : List Nat → List Nat × List Nat
  | [] => ([], [])
  | c :: cs =>
    if isDigitCp c then
      let r := takeDigitsCp cs
      (c :: r.1, r.2)
    else ([], c :: cs)

/-- Numeric value of a digit run. -/
def digitsToNat (ds : List Nat) : Nat :=
  ds.foldl (fun a d => a * 10 + (d - 48)) 0

/-- Expect exactly character `c` at the head of the line, returning
the rest. -/
def expectCp (c : Nat) : List Nat → Option (List Nat)
  | [] => none
  | x :: xs => if x = c then some xs else none

/-- Parse an SRT time `H+:M+:S+,mmm+` from the front of a line,
returning the time and the unconsumed rest. -/
def parseTimeCp (l : List Nat) : Option (SubRipTime × List Nat) :=
  let hh := takeDigitsCp l
  if hh.1 = [] then none else
  match expectCp 58 hh.2 with
  | none => none
  | some r2 =>
    let mm := takeDigitsCp r2
    if mm.1 = [] then none else
    match expectCp 58 mm.2 with
    | none => none
    | some r4 =>
      let ss := takeDigitsCp r4
      if ss.1 = [] then none else
      match expectCp 44 ss.2 with
      | none => none
      | some r6 =>
        let ms := takeDigitsCp r6
        if ms.1 = [] then none else
        some (⟨digitsToNat hh.1, digitsToNat mm.1,
               digitsToNat ss.1, digitsToNat ms.1⟩, ms.2)

/-- The characters that can occur in a timestamp line
`HH:MM:SS,mmm --> HH:MM:SS,mmm`: digits, ':', ',', ' ', '-', '>'. -/
def isTimeChar (c : Nat) : Prop :=
  (48 ≤ c ∧ c ≤ 57) ∨ c = 58 ∨ c = 44 ∨ c = 32 ∨ c = 45 ∨ c = 62

instance : DecidablePred isTimeChar := fun _ =>
  inferInstanceAs (Decidable (_ ∨ _))

/-- Shape of a full timestamp line: a time, the ` --> ` arrow, a
second time, nothing else. -/
def timestampShape (l : List Nat) : Option (SubRipTime × SubRipTime) :=
  match parseTimeCp l with
  | none => none
  | some (t1, r) =>
    match expectCp 32 r with
    | none => none
    | some a1 =>
      match expectCp 45 a1 with
      | none => none
      | some a2 =>
        match expectCp 45 a2 with
        | none => none
        | some a3 =>
          match expectCp 62 a3 with
          | none => none
          | some a4 =>
            match expectCp 32 a4 with
            | none => none
            | some r2 =>
              match parseTimeCp r2 with
              | none => none
              | some (t2, r3) => if r3 = [] then some (t1, t2) else none

/-- Parse a full SRT timestamp line.  The pattern only ever matches
lines made of digits, ':', ',', ' ', '-' and '>'; that character-set
constraint is checked explicitly alongside the shape. -/
def parseTimestampLineCp (l : List Nat) :
    Option (SubRipTime × SubRipTime) :=
  if l.all (fun c => decide (isTimeChar c)) then timestampShape l
  else none

/-- A parsed SRT cue: start, end, text lines.
Modelled from the spec: "a (start time, end time, text) triple parsed
from a transcription-service output format" — the `pysrt` library
itself is an external collaborator not present in the repository. -/
structure SrtCue where
  start : SubRipTime
  stop : SubRipTime
  textLines : List (List Nat)
deriving DecidableEq, Repr

/-- Parse one block (index line, timestamp line, text lines) into a
cue; blocks that do not match the format yield no cue.
Modelled from the spec (see `SrtCue`). -/
def parseBlockCp : List (List Nat) → Option SrtCue
  | idx :: ts :: rest =>
    if idx ≠ [] ∧ idx.all isDigitCp = true then
      (parseTimestampLineCp ts).map fun p => ⟨p.1, p.2, rest⟩
    else none
  | _ => none

/-- Parse an SRT text (codepoint sequence) into its cues.
Modelled from the spec (see `SrtCue`). -/
def parseSrtCp (text : List Nat) : List SrtCue :=
  (srtBlocks (splitNl text)).filterMap parseBlockCp

/-- `open_srt_with_encoding(file_path, encoding='windows-1252')`
(lines 377–380): re-read the file bytes under windows-1252 with
invalid bytes ignored, and parse the recovered text. -/
def open_srt_with_encoding (fileBytes : List Nat) : List SrtCue :=
  parseSrtCp (decodeCp1252Ignore fileBytes)

/-- The subtitle-reading step of `process_books` (lines 352–356):
`pysrt.open` with the default encoding, falling back to
`open_srt_with_encoding` when default decoding raises
`UnicodeDecodeError`. -/
def readSubtitles (fileBytes : List Nat) : List SrtCue :=
  match utf8Decode fileBytes with
  | some text => parseSrtCp text
  | none => open_srt_with_encoding fileBytes

/-- Correspondence between the UTF-8 decoding of a byte sequence and
its windows-1252-with-ignore decoding: each ASCII byte decodes to
itself in both, and each multi-byte UTF-8 sequence (codepoint
`c ≥ 0x80`) decodes under windows-1252 to a non-empty run `img` of
codepoints all `≥ 0x80` (its lead byte always survives the ignore
filter). -/
inductive Mangle : List Nat → List Nat → Prop where
  | nil : Mangle [] []
  | ascii (b : Nat) {cs ms : List Nat} : b < 0x80 → Mangle cs ms →
      Mangle (b :: cs) (b :: ms)
  | multi (c : Nat) (img : List Nat) {cs ms : List Nat} : 0x80 ≤ c →
      img ≠ [] → (∀ x ∈ img, 0x80 ≤ x) → Mangle cs ms →
      Mangle (c :: cs) (img ++ ms)

/-- Relation between a line of the UTF-8 decoding and the
corresponding line of the windows-1252 decoding of the same bytes:
emptiness agrees, and an all-ASCII line is preserved byte-for-byte. -/
def LineRel (l lp : List Nat) : Prop :=
  (l = [] ↔ lp = []) ∧ (l.all (fun c => decide (c < 0x80)) = true → lp = l)

/-! ## Lemmas -/

theorem set_get?_same {α : Type} (l : List α) (i : Nat) (v : α)
    (h : i < l.length) : (l.set i v).get? i = some v := by
  induction l generalizing i with
  | nil => simp at h
  | cons a t ih =>
    cases i with
    | zero => rfl
    | succ j => exact ih j (Nat.lt_of_succ_lt_succ h)

theorem set_get?_other {α : Type} (l : List α) (i j : Nat) (v : α)
    (h : j ≠ i) : (l.set i v).get? j = l.get? j := by
  induction l generalizing i j with
  | nil => rfl
  | cons a t ih =>
    cases i with
    | zero =>
      cases j with
      | zero => exact absurd rfl h
      | succ k => rfl
    | succ i' =>
      cases j with
      | zero => rfl
      | succ k => exact ih i' k (fun hk => h (by rw [hk]))

theorem countP_set_le {α : Type} (p : α → Bool) (l : List α) (i : Nat)
    (v : α) : (l.set i v).countP p ≤ l.countP p + 1 := by
  induction l generalizing i with
  | nil => simp [List.set]
  | cons a t ih =>
    cases i with
    | zero =>
      simp only [List.set, List.countP_cons]
      split_ifs <;> omega
    | succ i' =>
      simp only [List.set, List.countP_cons]
      have := ih i'
      omega

/-- The selection loop returns an index at least the running index, and
the line at that index is an unmarked line whose stripped title is the
returned title. -/
theorem selectBook_some (ls : List String) : ∀ i0 ps i t,
    selectBook ls i0 ps = some (i, t) →
    i0 ≤ i ∧ ∃ line, ls.get? (i - i0) = some line ∧
      pyStartsWith line "PROCESSED:" = false ∧ t = pyStrip line := by
  induction ls with
  | nil => intro i0 ps i t h; simp [selectBook] at h
  | cons line rest ih =>
    intro i0 ps i t h
    simp only [selectBook] at h
    by_cases h1 : pyStartsWith line "PROCESSED:" = true
    · rw [if_pos h1] at h
      obtain ⟨hle, l, hget, hl⟩ := ih (i0 + 1) _ i t h
      refine ⟨Nat.le_of_succ_le hle, l, ?_, hl⟩
      have : i - i0 = (i - (i0 + 1)) + 1 := by omega
      rw [this]
      exact hget
    · rw [if_neg h1] at h
      by_cases h2 : pyStrip line ∈ ps
      · rw [if_pos h2] at h
        obtain ⟨hle, l, hget, hl⟩ := ih (i0 + 1) _ i t h
        refine ⟨Nat.le_of_succ_le hle, l, ?_, hl⟩
        have : i - i0 = (i - (i0 + 1)) + 1 := by omega
        rw [this]
        exact hget
      · rw [if_neg h2] at h
        obtain ⟨rfl, rfl⟩ : i0 = i ∧ pyStrip line = t := by
          cases h; exact ⟨rfl, rfl⟩
        refine ⟨Nat.le_refl _, line, ?_, ?_, rfl⟩
        · simp
        · exact Bool.not_eq_true _ ▸ (by simpa using h1)

/-- When every line is skipped, the selection loop returns nothing. -/
theorem selectBook_eq_none_of_allDone : ∀ (ls ps : List String),
    allDone ls ps = true → ∀ i0, selectBook ls i0 ps = none := by
  intro ls
  induction ls with
  | nil => intro ps _ i0; rfl
  | cons line rest ih =>
    intro ps h i0
    simp only [allDone] at h
    simp only [selectBook]
    by_cases h1 : pyStartsWith line "PROCESSED:" = true
    · rw [if_pos h1] at h ⊢
      exact ih _ h _
    · rw [if_neg h1] at h ⊢
      by_cases h2 : pyStrip line ∈ ps
      · rw [if_pos h2] at h ⊢
        exact ih _ h _
      · rw [if_neg h2] at h
        exact absurd h (by simp)

/-- One invocation either leaves the lines unchanged or rewrites
exactly the selected line to the marker form. -/
theorem process_books_file_cases (env : Nat → ApiAttempt) (restOk : Bool)
    (lines : List String) :
    (process_books env restOk lines).file = lines ∨
    ∃ i t, selectBook lines 0 [] = some (i, t) ∧
      (process_books env restOk lines).file =
        lines.set i ("PROCESSED: " ++ t ++ "\n") := by
  unfold process_books
  cases hsel : selectBook lines 0 [] with
  | none => exact Or.inl rfl
  | some it =>
    obtain ⟨i, t⟩ := it
    cases hsum : (generate_book_summary env 3 2).1 with
    | sentinel msg l => exact Or.inl rfl
    | summary s =>
      cases restOk with
      | false => exact Or.inl rfl
      | true => exact Or.inr ⟨i, t, rfl, rfl⟩

/-- The marker-form line is itself a marked line. -/
theorem isMarkedLine_marker (t : String) :
    isMarkedLine ("PROCESSED: " ++ t ++ "\n") = true := by
  have hdata : ("PROCESSED: " ++ t ++ "\n").data =
      "PROCESSED:".data ++ (' ' :: (t.data ++ "\n".data)) := by
    simp [String.data_append]
  simp only [isMarkedLine, pyStartsWith, hdata]
  rw [List.isPrefixOf_iff_prefix]
  exact ⟨' ' :: (t.data ++ "\n".data), rfl⟩

/-- A marked line is preserved by one invocation. -/
theorem process_books_preserves_marked (env : Nat → ApiAttempt)
    (restOk : Bool) (lines : List String) (j : Nat) (line : String)
    (hget : lines.get? j = some line) (hm : isMarkedLine line = true) :
    (process_books env restOk lines).file.get? j = some line := by
  rcases process_books_file_cases env restOk lines with h | ⟨i, t, hsel, h⟩
  · rw [h]; exact hget
  · rw [h]
    have hij : j ≠ i := by
      intro hji
      obtain ⟨-, line', hget', hun, -⟩ := selectBook_some lines 0 [] i t hsel
      rw [Nat.sub_zero] at hget'
      rw [hji] at hget
      rw [hget] at hget'
      cases hget'
      rw [isMarkedLine] at hm
      rw [hm] at hun
      cases hun
    rw [set_get?_other _ _ _ _ hij]
    exact hget

/-- One invocation increases the number of marked lines by at most
one. -/
theorem countMarked_process_books_le (env : Nat → ApiAttempt)
    (restOk : Bool) (lines : List String) :
    countMarked (process_books env restOk lines).file ≤
      countMarked lines + 1 := by
  rcases process_books_file_cases env restOk lines with h | ⟨i, t, _, h⟩
  · rw [h]; omega
  · rw [h]; exact countP_set_le _ _ _ _

/-! ## Claim theorems -/

/-- C1: for every work-list whose first unprocessed title (in file
order, not in the accumulated processed-set) is `T` at index `i`, an
invocation of `process_books` in which the pipeline completes rewrites
exactly line `i` to `"PROCESSED: " ++ T` (with its newline terminator)
and leaves every other line byte-identical. -/
theorem process_books_rewrites_exactly_selected_line
    (env : Nat → ApiAttempt) (restOk : Bool) (lines : List String)
    (i : Nat) (T : String)
    (hsel : selectBook lines 0 [] = some (i, T))
    (hdone : (process_books env restOk lines).crashed = false) :
    (process_books env restOk lines).file.get? i =
      some ("PROCESSED: " ++ T ++ "\n") ∧
    (∀ j, j ≠ i →
      (process_books env restOk lines).file.get? j = lines.get? j) ∧
    (process_books env restOk lines).file.length = lines.length := by
  have hlt : i < lines.length := by
    obtain ⟨-, line, hget, -, -⟩ := selectBook_some lines 0 [] i T hsel
    rw [Nat.sub_zero] at hget
    exact (List.get?_eq_some.mp hget).1
  simp only [process_books, hsel] at hdone ⊢
  cases hsum : (generate_book_summary env 3 2).1 with
  | sentinel msg l => rw [hsum] at hdone; simp at hdone
  | summary s =>
    rw [hsum] at hdone
    cases restOk with
    | false => simp at hdone
    | true =>
      exact ⟨set_get?_same _ _ _ hlt,
        fun j hj => set_get?_other _ _ _ _ hj, by simp⟩

theorem process_books_rewrites_exactly_selected_line_witness :
    selectBook ["PROCESSED: A\n", "B\n", "C\n"] 0 [] = some (1, "B") ∧
    (process_books (fun _ => ApiAttempt.response 200 "S") true
      ["PROCESSED: A\n", "B\n", "C\n"]).file.get? 1 =
        some "PROCESSED: B\n" ∧
    (process_books (fun _ => ApiAttempt.response 200 "S") true
      ["PROCESSED: A\n", "B\n", "C\n"]).file.get? 2 = some "C\n" := by
  have h := process_books_rewrites_exactly_selected_line
    (fun _ => ApiAttempt.response 200 "S") true
    ["PROCESSED: A\n", "B\n", "C\n"] 1 "B" (by decide) (by decide)
  refine ⟨by decide, ?_, ?_⟩
  · rw [h.1]; decide
  · rw [h.2.1 2 (by decide)]; rfl

/-- C2: over `N` invocations at most `N` lines become marked (so at
most `N` marked lines from an initially unmarked work-list), a marked
line stays byte-identical through every invocation, and the selection
loop never selects a marked line. -/
theorem work_list_marking_invariants (envs : Nat → Nat → ApiAttempt)
    (restOks : Nat → Bool) (lines : List String) (N : Nat) :
    countMarked (runN envs restOks lines N) ≤ countMarked lines + N ∧
    (countMarked lines = 0 →
      countMarked (runN envs restOks lines N) ≤ N) ∧
    (∀ j line, lines.get? j = some line → isMarkedLine line = true →
      (runN envs restOks lines N).get? j = some line) ∧
    (∀ ls i t, selectBook ls 0 [] = some (i, t) →
      ∃ line, ls.get? i = some line ∧ isMarkedLine line = false) := by
  have h1 : countMarked (runN envs restOks lines N) ≤
      countMarked lines + N := by
    induction N with
    | zero => simp [runN]
    | succ n ih =>
      have hstep := countMarked_process_books_le (envs n) (restOks n)
        (runN envs restOks lines n)
      simp only [runN]
      omega
  refine ⟨h1, fun h0 => by omega, ?_, ?_⟩
  · intro j line hget hm
    clear h1
    induction N with
    | zero => exact hget
    | succ n ih =>
      exact process_books_preserves_marked _ _ _ _ _ ih hm
  · intro ls i t hsel
    obtain ⟨-, line, hget, hun, -⟩ := selectBook_some ls 0 [] i t hsel
    rw [Nat.sub_zero] at hget
    exact ⟨line, hget, hun⟩

theorem work_list_marking_invariants_witness :
    countMarked (runN (fun _ _ => ApiAttempt.response 200 "S")
      (fun _ => true) ["B\n"] 1) ≤ 1 ∧
    (runN (fun _ _ => ApiAttempt.response 200 "S") (fun _ => true)
      ["PROCESSED: A\n", "B\n"] 1).get? 0 = some "PROCESSED: A\n" := by
  refine ⟨?_, ?_⟩
  · exact (work_list_marking_invariants (fun _ _ => ApiAttempt.response 200 "S")
      (fun _ => true) ["B\n"] 1).2.1 (by decide)
  · exact (work_list_marking_invariants (fun _ _ => ApiAttempt.response 200 "S")
      (fun _ => true) ["PROCESSED: A\n", "B\n"] 1).2.2.1 0 "PROCESSED: A\n"
      (by decide) (by decide)

/-- C3 (code-bug evaluation): with the work-list `["Dune\n"]` (one
unmarked title) and every summary request failing, `generate_book_summary`
returns the tuple sentinel and line 323 `full_summary += '...'` raises
`TypeError` (tuple + str): the invocation crashes instead of returning
normally.  The line is left unmarked only because the exception skips
the write-back. -/
theorem process_books_crashes_on_summary_exhaustion :
    process_books (fun _ => ApiAttempt.raises) true ["Dune\n"] =
      ⟨["Dune\n"], true, true⟩ ∧
    (generate_book_summary (fun _ => ApiAttempt.raises) 3 2).1 =
      SummaryReturn.sentinel
        "Max retries reached. Unable to generate summary." [] ∧
    isMarkedLine "Dune\n" = false := by
  decide

/-- C10: when every line of the work-list is already marked or
duplicates an already-processed title, the invocation runs no pipeline
step, does not crash, and rewrites the file with byte-identical
content. -/
theorem process_books_noop_when_all_done (env : Nat → ApiAttempt)
    (restOk : Bool) (lines : List String)
    (h : allDone lines [] = true) :
    process_books env restOk lines = ⟨lines, false, false⟩ := by
  unfold process_books
  rw [selectBook_eq_none_of_allDone lines [] h 0]

theorem process_books_noop_when_all_done_witness :
    process_books (fun _ => ApiAttempt.raises) true
      ["PROCESSED: A\n", "A\n"] =
      ⟨["PROCESSED: A\n", "A\n"], false, false⟩ :=
  process_books_noop_when_all_done _ _ _ (by decide)

/-- C5: slug derivation is a deterministic function of the title, the
three components compute identical slugs, and
`"The Hobbit: A Tale"` maps to `the_hobbit_a_tale`. -/
theorem slug_derivation_deterministic_and_shared :
    (∀ t : String, text_to_speech_slug t = process_books_slug t ∧
      generate_book_thumbnail_slug t = process_books_slug t) ∧
    (∀ t1 t2 : String, t1 = t2 →
      process_books_slug t1 = process_books_slug t2) ∧
    process_books_slug "The Hobbit: A Tale" = "the_hobbit_a_tale" :=
  ⟨fun _ => ⟨rfl, rfl⟩, fun _ _ h => by rw [h], by decide⟩

theorem slug_derivation_deterministic_and_shared_witness :
    process_books_slug "The Hobbit: A Tale" =
      process_books_slug "The Hobbit: A Tale" ∧
    text_to_speech_slug "The Hobbit: A Tale" = "the_hobbit_a_tale" := by
  refine ⟨slug_derivation_deterministic_and_shared.2.1
    "The Hobbit: A Tale" "The Hobbit: A Tale" rfl, ?_⟩
  rw [(slug_derivation_deterministic_and_shared.1 "The Hobbit: A Tale").1]
  exact slug_derivation_deterministic_and_shared.2.2

/-- The retry loop of `generate_book_summary`: at most `fuel` requests;
a summary result comes from a 200 response among them; the sentinel
result carries the fixed message and the empty list, after exactly
`fuel` requests and `delay * fuel` total sleep. -/
theorem gbsLoop_spec (env : Nat → ApiAttempt) (delay : Nat) : ∀ fuel a,
    (gbsLoop env delay fuel a).2.1 ≤ fuel ∧
    (∀ s, (gbsLoop env delay fuel a).1 = .summary s →
      ∃ k, a ≤ k ∧ k < a + fuel ∧ env k = .response 200 s) ∧
    (∀ msg l, (gbsLoop env delay fuel a).1 = .sentinel msg l →
      msg = "Max retries reached. Unable to generate summary." ∧ l = [] ∧
      (gbsLoop env delay fuel a).2.1 = fuel ∧
      (gbsLoop env delay fuel a).2.2 = delay * fuel) := by
  intro fuel
  induction fuel with
  | zero =>
    intro a
    refine ⟨Nat.le_refl _, ?_, ?_⟩
    · intro s h; exact absurd h (by simp [gbsLoop])
    · intro msg l h
      simp only [gbsLoop] at h
      injection h with h1 h2
      exact ⟨h1.symm, h2.symm, rfl, rfl⟩
  | succ n ih =>
    intro a
    cases henv : env a with
    | raises =>
      have hg1 : (gbsLoop env delay (n + 1) a).1 =
          (gbsLoop env delay n (a + 1)).1 := by
        simp [gbsLoop, henv]
      have hg2 : (gbsLoop env delay (n + 1) a).2.1 =
          (gbsLoop env delay n (a + 1)).2.1 + 1 := by
        simp [gbsLoop, henv]
      have hg3 : (gbsLoop env delay (n + 1) a).2.2 =
          (gbsLoop env delay n (a + 1)).2.2 + delay := by
        simp [gbsLoop, henv]
      obtain ⟨ih1, ih2, ih3⟩ := ih (a + 1)
      rw [hg1, hg2, hg3]
      refine ⟨by omega, ?_, ?_⟩
      · intro s h
        obtain ⟨k, hk1, hk2, hk3⟩ := ih2 s h
        exact ⟨k, by omega, by omega, hk3⟩
      · intro msg l h
        obtain ⟨h1, h2, h3, h4⟩ := ih3 msg l h
        refine ⟨h1, h2, by omega, by rw [h4, Nat.mul_succ]⟩
    | response st body =>
      by_cases hst : st = 200
      · subst hst
        have hg1 : (gbsLoop env delay (n + 1) a).1 = .summary body := by
          simp [gbsLoop, henv]
        have hg2 : (gbsLoop env delay (n + 1) a).2.1 = 1 := by
          simp [gbsLoop, henv]
        rw [hg1, hg2]
        refine ⟨by omega, ?_, ?_⟩
        · intro s h
          injection h with h1
          exact ⟨a, Nat.le_refl a, by omega, h1 ▸ henv⟩
        · intro msg l h; exact absurd h (by simp)
      · have hg1 : (gbsLoop env delay (n + 1) a).1 =
            (gbsLoop env delay n (a + 1)).1 := by
          simp [gbsLoop, henv, hst]
        have hg2 : (gbsLoop env delay (n + 1) a).2.1 =
            (gbsLoop env delay n (a + 1)).2.1 + 1 := by
          simp [gbsLoop, henv, hst]
        have hg3 : (gbsLoop env delay (n + 1) a).2.2 =
            (gbsLoop env delay n (a + 1)).2.2 + delay := by
          simp [gbsLoop, henv, hst]
        obtain ⟨ih1, ih2, ih3⟩ := ih (a + 1)
        rw [hg1, hg2, hg3]
        refine ⟨by omega, ?_, ?_⟩
        · intro s h
          obtain ⟨k, hk1, hk2, hk3⟩ := ih2 s h
          exact ⟨k, by omega, by omega, hk3⟩
        · intro msg l h
          obtain ⟨h1, h2, h3, h4⟩ := ih3 msg l h
          refine ⟨h1, h2, by omega, by rw [h4, Nat.mul_succ]⟩

/-- C4: `generate_book_summary` issues at most `max_retries` requests
and never raises; a summary result is the content of a 200 response;
the retry-exhaustion value is the pair (fixed message, empty list)
reached after exactly `max_retries` requests with the fixed
inter-attempt delay each; the two return shapes are distinct. -/
theorem generate_book_summary_retry_contract (env : Nat → ApiAttempt)
    (max_retries delay : Nat) :
    (generate_book_summary env max_retries delay).2.1 ≤ max_retries ∧
    (∀ s, (generate_book_summary env max_retries delay).1 = .summary s →
      ∃ k, k < max_retries ∧ env k = .response 200 s) ∧
    (∀ msg l,
      (generate_book_summary env max_retries delay).1 = .sentinel msg l →
      msg = "Max retries reached. Unable to generate summary." ∧ l = [] ∧
      (generate_book_summary env max_retries delay).2.1 = max_retries ∧
      (generate_book_summary env max_retries delay).2.2 =
        delay * max_retries) ∧
    (∀ s msg l, SummaryReturn.summary s ≠ SummaryReturn.sentinel msg l) := by
  obtain ⟨h1, h2, h3⟩ := gbsLoop_spec env delay max_retries 0
  refine ⟨h1, ?_, h3, fun s msg l h => by cases h⟩
  intro s h
  obtain ⟨k, -, hk2, hk3⟩ := h2 s h
  exact ⟨k, by omega, hk3⟩

theorem generate_book_summary_retry_contract_witness :
    (generate_book_summary (fun _ => ApiAttempt.raises) 3 2).2.1 = 3 ∧
    (generate_book_summary (fun _ => ApiAttempt.raises) 3 2).2.2 = 2 * 3 := by
  have hfail := (generate_book_summary_retry_contract
    (fun _ => ApiAttempt.raises) 3 2).2.2.1
    "Max retries reached. Unable to generate summary." [] (by decide)
  exact ⟨hfail.2.2.1, hfail.2.2.2⟩

/-- The retry loop of `generate_subtitles`: exhaustion yields
`(none, [])`; a successful return is `pyReplace path ".mp3" ".srt"`
and the single write of the attempt's content to that path. -/
theorem gsLoop_spec (env : Nat → SubAttempt) (p : String) : ∀ fuel a,
    ((∀ k, a ≤ k → k < a + fuel → env k = .raises) →
      gsLoop env p fuel a = (none, [])) ∧
    (∀ q, (gsLoop env p fuel a).1 = some q →
      q = pyReplace p ".mp3" ".srt" ∧
      ∃ content, (gsLoop env p fuel a).2 = [(q, content)] ∧
        ∃ k, a ≤ k ∧ k < a + fuel ∧ env k = .ok content) := by
  intro fuel
  induction fuel with
  | zero =>
    intro a
    exact ⟨fun _ => rfl, fun q h => by simp [gsLoop] at h⟩
  | succ n ih =>
    intro a
    cases henv : env a with
    | raises =>
      have hg : gsLoop env p (n + 1) a = gsLoop env p n (a + 1) := by
        simp [gsLoop, henv]
      obtain ⟨ih1, ih2⟩ := ih (a + 1)
      rw [hg]
      refine ⟨fun hall => ih1 fun k hk1 hk2 =>
        hall k (by omega) (by omega), ?_⟩
      intro q h
      obtain ⟨hq, content, hw, k, hk1, hk2, hk3⟩ := ih2 q h
      exact ⟨hq, content, hw, k, by omega, by omega, hk3⟩
    | ok content =>
      have hg : gsLoop env p (n + 1) a =
          (some (pyReplace p ".mp3" ".srt"),
           [(pyReplace p ".mp3" ".srt", content)]) := by
        simp [gsLoop, henv]
      rw [hg]
      constructor
      · intro hall
        have hc := hall a (Nat.le_refl a) (by omega)
        rw [henv] at hc
        cases hc
      · intro q h
        rcases Option.some.inj h with rfl
        exact ⟨rfl, content, rfl, a, Nat.le_refl a, by omega, henv⟩

/-- C6 counterexample: the code replaces every occurrence of `.mp3`,
not the suffix.  On the audio path `voice.mp3.mp3` (which ends in
`.mp3`) a successful run returns `voice.srt.srt`, while the sibling
path with only the suffix replaced is `voice.mp3.srt`. -/
theorem generate_subtitles_not_suffix_replacement :
    (generate_subtitles (fun _ => SubAttempt.ok "1\n") "voice.mp3.mp3" 3).1 =
      some "voice.srt.srt" ∧
    spec_sibling_srt_path "voice.mp3.mp3" = "voice.mp3.srt" ∧
    ("voice.srt.srt" : String) ≠ "voice.mp3.srt" := by
  decide

/-- C6 amended: on success `generate_subtitles` writes the
transcription to the path obtained by replacing every occurrence of
`.mp3` with `.srt` in the audio path (for the driver's paths, where
`.mp3` occurs exactly once as the suffix, this is the sibling path
with the subtitle extension) and returns that path; after exhausting
all retries it returns `None` and writes nothing. -/
theorem generate_subtitles_replace_all_contract (env : Nat → SubAttempt)
    (audio_file_path : String) (max_retries : Nat) :
    ((∀ k, k < max_retries → env k = SubAttempt.raises) →
      generate_subtitles env audio_file_path max_retries = (none, [])) ∧
    (∀ q, (generate_subtitles env audio_file_path max_retries).1 = some q →
      q = pyReplace audio_file_path ".mp3" ".srt" ∧
      ∃ content,
        (generate_subtitles env audio_file_path max_retries).2 =
          [(q, content)] ∧
        ∃ k, k < max_retries ∧ env k = SubAttempt.ok content) := by
  obtain ⟨h1, h2⟩ := gsLoop_spec env audio_file_path max_retries 0
  refine ⟨fun hall => h1 fun k _ hk => hall k (by omega), ?_⟩
  intro q h
  obtain ⟨hq, content, hw, k, -, hk2, hk3⟩ := h2 q h
  exact ⟨hq, content, hw, k, by omega, hk3⟩

theorem generate_subtitles_replace_all_contract_witness :
    generate_subtitles (fun _ => SubAttempt.raises) "voice.mp3" 3 =
      (none, []) ∧
    ("voice.srt" : String) = pyReplace "voice.mp3" ".mp3" ".srt" := by
  refine ⟨(generate_subtitles_replace_all_contract
    (fun _ => SubAttempt.raises) "voice.mp3" 3).1 (fun k _ => rfl), ?_⟩
  exact ((generate_subtitles_replace_all_contract
    (fun _ => SubAttempt.ok "X") "voice.mp3" 3).2 "voice.srt" (by decide)).1

/-- C8: `create_subtitle_clips` produces one caption clip per cue, in
order; every clip carries the cue's text, is horizontally centered,
sits at `4/5` of the video height (within the bottom quarter of the
frame when the height is non-negative), and is visible exactly on the
interval `[start, end)` of its cue under `time_to_seconds`. -/
theorem create_subtitle_clips_per_cue (subtitles : List SubtitleCue)
    (w h : ℚ) :
    (create_subtitle_clips subtitles (w, h)).length = subtitles.length ∧
    List.Forall₂ (fun subtitle c =>
      c.text = subtitle.text ∧
      c.posX = HPosition.center ∧
      c.posY = h * 4 / 5 ∧
      (0 ≤ h → h * 3 / 4 ≤ c.posY ∧ c.posY ≤ h) ∧
      (∀ t : ℚ, clipVisibleAt c t ↔
        (time_to_seconds subtitle.start ≤ t ∧
          t < time_to_seconds subtitle.stop)))
      subtitles (create_subtitle_clips subtitles (w, h)) := by
  constructor
  · simp [create_subtitle_clips]
  · induction subtitles with
    | nil => exact List.Forall₂.nil
    | cons sub rest ih =>
      refine List.Forall₂.cons ⟨rfl, rfl, rfl, fun h0 => ⟨?_, ?_⟩,
        fun t => ?_⟩ ih
      · show h * 3 / 4 ≤ h * 4 / 5
        linarith
      · show h * 4 / 5 ≤ h
        linarith
      · show time_to_seconds sub.start ≤ t ∧
            t < time_to_seconds sub.start +
              (time_to_seconds sub.stop - time_to_seconds sub.start) ↔ _
        constructor
        · rintro ⟨ha, hb⟩
          exact ⟨ha, by linarith⟩
        · rintro ⟨ha, hb⟩
          exact ⟨ha, by linarith⟩

theorem create_subtitle_clips_per_cue_witness :
    (create_subtitle_clips
      [⟨⟨0, 0, 0, 0⟩, ⟨0, 0, 2, 0⟩, "a"⟩, ⟨⟨0, 0, 2, 0⟩, ⟨0, 0, 5, 0⟩, "b"⟩]
      ((1920 : ℚ), (1080 : ℚ))).length = 2 ∧
    ((1080 : ℚ) * 3 / 4 ≤ 864 ∧ (864 : ℚ) ≤ 1080) ∧
    clipVisibleAt
      ⟨"a", 0, 2, .center, 864, 50, "Arial", "white", "black", 1440⟩ 1 ∧
    ¬ clipVisibleAt
      ⟨"a", 0, 2, .center, 864, 50, "Arial", "white", "black", 1440⟩ 2 ∧
    clipVisibleAt
      ⟨"b", 2, 3, .center, 864, 50, "Arial", "white", "black", 1440⟩ 2 := by
  have h := create_subtitle_clips_per_cue
    [⟨⟨0, 0, 0, 0⟩, ⟨0, 0, 2, 0⟩, "a"⟩, ⟨⟨0, 0, 2, 0⟩, ⟨0, 0, 5, 0⟩, "b"⟩]
    1920 1080
  have heq : create_subtitle_clips
      [⟨⟨0, 0, 0, 0⟩, ⟨0, 0, 2, 0⟩, "a"⟩, ⟨⟨0, 0, 2, 0⟩, ⟨0, 0, 5, 0⟩, "b"⟩]
      ((1920 : ℚ), (1080 : ℚ)) =
      [⟨"a", 0, 2, .center, 864, 50, "Arial", "white", "black", 1440⟩,
       ⟨"b", 2, 3, .center, 864, 50, "Arial", "white", "black", 1440⟩] := by
    norm_num [create_subtitle_clips, time_to_seconds]
  obtain ⟨hlen, hrel⟩ := h
  rw [heq] at hrel
  cases hrel with
  | cons hA htail =>
    cases htail with
    | cons hB _ =>
      refine ⟨hlen, ?_, ?_, ?_, ?_⟩
      · have hb := hA.2.2.2.1 (by norm_num)
        exact ⟨hb.1, hb.2⟩
      · exact (hA.2.2.2.2 1).mpr
          ⟨by norm_num [time_to_seconds], by norm_num [time_to_seconds]⟩
      · intro hv
        have hx := (hA.2.2.2.2 2).mp hv
        norm_num [time_to_seconds] at hx
      · exact (hB.2.2.2.2 2).mpr
          ⟨by norm_num [time_to_seconds], by norm_num [time_to_seconds]⟩

/-- C9 counterexample: in the video-hosting (YouTube) path, with
cached credentials that are invalid, expired and bearing a refresh
token, a refresh failure is NOT caught: the exception propagates and
no interactive login happens — refuting the claim for "every
credential-acquisition path". -/
theorem service_youtube_refresh_failure_uncaught :
    service_youtube (some ⟨false, true, true⟩) (Except.error ())
      ⟨true, false, false⟩ = Except.error () ∧
    service_youtube (some ⟨false, true, true⟩) (Except.error ())
      ⟨true, false, false⟩ ≠
      Except.ok ⟨⟨true, false, false⟩, true, true⟩ := by
  refine ⟨rfl, ?_⟩
  intro h
  exact Except.noConfusion
    (show (Except.error () : Except Unit CredResult) =
      Except.ok ⟨⟨true, false, false⟩, true, true⟩ from h)

/-- C9 amended: in the file-storage (Drive) path a refresh failure is
caught and falls through to a fresh interactive login; in the
video-hosting (YouTube) path it propagates uncaught.  In the YouTube
path an interactive login happens only if no token is cached or the
cached credentials are invalid without being expired-with-refresh-token;
in the Drive path only if no token is cached or the refresh failed.
In both paths the result is persisted back to the token file exactly
when the cached credentials were not already valid. -/
theorem credential_flow_refresh_and_persistence
    (stored : Option Creds) (refresh : Except Unit Creds) (login : Creds) :
    (∀ c, stored = some c → c.valid = false → c.expired = true →
      c.refresh_token = true → refresh = .error () →
      service_google_drive stored refresh login = .ok ⟨login, true, true⟩) ∧
    (∀ c, stored = some c → c.valid = false → c.expired = true →
      c.refresh_token = true → refresh = .error () →
      service_youtube stored refresh login = .error ()) ∧
    (∀ r, service_youtube stored refresh login = .ok r →
      r.interactive = true →
      stored = none ∨ ∃ c, stored = some c ∧ c.valid = false ∧
        (c.expired = true ∧ c.refresh_token = true → False)) ∧
    (∀ r, service_google_drive stored refresh login = .ok r →
      r.interactive = true →
      stored = none ∨ ∃ c, stored = some c ∧ c.valid = false ∧
        c.expired = true ∧ c.refresh_token = true ∧ refresh = .error ()) ∧
    (∀ r, service_youtube stored refresh login = .ok r →
      (r.persisted = false ↔ stored = some r.creds ∧ r.creds.valid = true)) ∧
    (∀ r, service_google_drive stored refresh login = .ok r →
      (r.persisted = false ↔ stored = some r.creds ∧ r.creds.valid = true)) := by
  cases stored with
  | none =>
    refine ⟨?_, ?_, ?_, ?_, ?_, ?_⟩
    · intro c hc _hv _he _hrt _hre; cases hc
    · intro c hc _hv _he _hrt _hre; cases hc
    · intro r _hr _hint; exact Or.inl rfl
    · intro r _hr _hint; exact Or.inl rfl
    · intro r hr
      have hr2 : Except.ok (⟨login, true, true⟩ : CredResult) =
          Except.ok r := hr
      injection hr2 with hr2
      subst hr2
      constructor
      · intro hx; exact Bool.noConfusion hx
      · rintro ⟨hx, -⟩; exact Option.noConfusion hx
    · intro r hr
      have hr2 : Except.ok (⟨login, true, true⟩ : CredResult) =
          Except.ok r := hr
      injection hr2 with hr2
      subst hr2
      constructor
      · intro hx; exact Bool.noConfusion hx
      · rintro ⟨hx, -⟩; exact Option.noConfusion hx
  | some c =>
    obtain ⟨v, e, rt⟩ := c
    cases v with
    | true =>
      refine ⟨?_, ?_, ?_, ?_, ?_, ?_⟩
      · intro c hc hv _he _hrt _hre
        injection hc with hc
        rw [← hc] at hv
        exact Bool.noConfusion hv
      · intro c hc hv _he _hrt _hre
        injection hc with hc
        rw [← hc] at hv
        exact Bool.noConfusion hv
      · intro r hr hint
        have hr2 : Except.ok (⟨⟨true, e, rt⟩, false, false⟩ : CredResult) =
            Except.ok r := hr
        injection hr2 with hr2
        subst hr2
        exact Bool.noConfusion hint
      · intro r hr hint
        have hr2 : Except.ok (⟨⟨true, e, rt⟩, false, false⟩ : CredResult) =
            Except.ok r := hr
        injection hr2 with hr2
        subst hr2
        exact Bool.noConfusion hint
      · intro r hr
        have hr2 : Except.ok (⟨⟨true, e, rt⟩, false, false⟩ : CredResult) =
            Except.ok r := hr
        injection hr2 with hr2
        subst hr2
        exact ⟨fun _ => ⟨rfl, rfl⟩, fun _ => rfl⟩
      · intro r hr
        have hr2 : Except.ok (⟨⟨true, e, rt⟩, false, false⟩ : CredResult) =
            Except.ok r := hr
        injection hr2 with hr2
        subst hr2
        exact ⟨fun _ => ⟨rfl, rfl⟩, fun _ => rfl⟩
    | false =>
      cases e with
      | false =>
        refine ⟨?_, ?_, ?_, ?_, ?_, ?_⟩
        · intro c hc _hv he _hrt _hre
          injection hc with hc
          rw [← hc] at he
          exact Bool.noConfusion he
        · intro c hc _hv he _hrt _hre
          injection hc with hc
          rw [← hc] at he
          exact Bool.noConfusion he
        · intro r hr _hint
          have hr2 : Except.ok (⟨login, true, true⟩ : CredResult) =
              Except.ok r := hr
          injection hr2 with hr2
          subst hr2
          refine Or.inr ⟨⟨false, false, rt⟩, rfl, rfl, ?_⟩
          rintro ⟨hx, -⟩
          exact Bool.noConfusion hx
        · intro r hr hint
          have hr2 : Except.ok
              (⟨⟨false, false, rt⟩, false, true⟩ : CredResult) =
              Except.ok r := hr
          injection hr2 with hr2
          subst hr2
          exact Bool.noConfusion hint
        · intro r hr
          have hr2 : Except.ok (⟨login, true, true⟩ : CredResult) =
              Except.ok r := hr
          injection hr2 with hr2
          subst hr2
          constructor
          · intro hx; exact Bool.noConfusion hx
          · rintro ⟨hx1, hx2⟩
            injection hx1 with hx1
            rw [← hx1] at hx2
            exact Bool.noConfusion hx2
        · intro r hr
          have hr2 : Except.ok
              (⟨⟨false, false, rt⟩, false, true⟩ : CredResult) =
              Except.ok r := hr
          injection hr2 with hr2
          subst hr2
          constructor
          · intro hx; exact Bool.noConfusion hx
          · rintro ⟨-, hx2⟩; exact Bool.noConfusion hx2
      | true =>
        cases rt with
        | false =>
          refine ⟨?_, ?_, ?_, ?_, ?_, ?_⟩
          · intro c hc _hv _he hrt _hre
            injection hc with hc
            rw [← hc] at hrt
            exact Bool.noConfusion hrt
          · intro c hc _hv _he hrt _hre
            injection hc with hc
            rw [← hc] at hrt
            exact Bool.noConfusion hrt
          · intro r hr _hint
            have hr2 : Except.ok (⟨login, true, true⟩ : CredResult) =
                Except.ok r := hr
            injection hr2 with hr2
            subst hr2
            refine Or.inr ⟨⟨false, true, false⟩, rfl, rfl, ?_⟩
            rintro ⟨-, hx⟩
            exact Bool.noConfusion hx
          · intro r hr hint
            have hr2 : Except.ok
                (⟨⟨false, true, false⟩, false, true⟩ : CredResult) =
                Except.ok r := hr
            injection hr2 with hr2
            subst hr2
            exact Bool.noConfusion hint
          · intro r hr
            have hr2 : Except.ok (⟨login, true, true⟩ : CredResult) =
                Except.ok r := hr
            injection hr2 with hr2
            subst hr2
            constructor
            · intro hx; exact Bool.noConfusion hx
            · rintro ⟨hx1, hx2⟩
              injection hx1 with hx1
              rw [← hx1] at hx2
              exact Bool.noConfusion hx2
          · intro r hr
            have hr2 : Except.ok
                (⟨⟨false, true, false⟩, false, true⟩ : CredResult) =
                Except.ok r := hr
            injection hr2 with hr2
            subst hr2
            constructor
            · intro hx; exact Bool.noConfusion hx
            · rintro ⟨-, hx2⟩; exact Bool.noConfusion hx2
        | true =>
          cases refresh with
          | error u =>
            cases u
            refine ⟨?_, ?_, ?_, ?_, ?_, ?_⟩
            · intro _c _hc _hv _he _hrt _hre; rfl
            · intro _c _hc _hv _he _hrt _hre; rfl
            · intro r hr
              exact Except.noConfusion
                (show (Except.error () : Except Unit CredResult) =
                  Except.ok r from hr)
            · intro r hr _hint
              have hr2 : Except.ok (⟨login, true, true⟩ : CredResult) =
                  Except.ok r := hr
              injection hr2 with hr2
              subst hr2
              exact Or.inr ⟨⟨false, true, true⟩, rfl, rfl, rfl, rfl, rfl⟩
            · intro r hr
              exact Except.noConfusion
                (show (Except.error () : Except Unit CredResult) =
                  Except.ok r from hr)
            · intro r hr
              have hr2 : Except.ok (⟨login, true, true⟩ : CredResult) =
                  Except.ok r := hr
              injection hr2 with hr2
              subst hr2
              constructor
              · intro hx; exact Bool.noConfusion hx
              · rintro ⟨hx1, hx2⟩
                injection hx1 with hx1
                rw [← hx1] at hx2
                exact Bool.noConfusion hx2
          | ok c2 =>
            refine ⟨?_, ?_, ?_, ?_, ?_, ?_⟩
            · intro _c _hc _hv _he _hrt hre; exact Except.noConfusion hre
            · intro _c _hc _hv _he _hrt hre; exact Except.noConfusion hre
            · intro r hr hint
              have hr2 : Except.ok (⟨c2, false, true⟩ : CredResult) =
                  Except.ok r := hr
              injection hr2 with hr2
              subst hr2
              exact Bool.noConfusion hint
            · intro r hr hint
              have hr2 : Except.ok (⟨c2, false, true⟩ : CredResult) =
                  Except.ok r := hr
              injection hr2 with hr2
              subst hr2
              exact Bool.noConfusion hint
            · intro r hr
              have hr2 : Except.ok (⟨c2, false, true⟩ : CredResult) =
                  Except.ok r := hr
              injection hr2 with hr2
              subst hr2
              constructor
              · intro hx; exact Bool.noConfusion hx
              · rintro ⟨hx1, hx2⟩
                injection hx1 with hx1
                rw [← hx1] at hx2
                exact Bool.noConfusion hx2
            · intro r hr
              have hr2 : Except.ok (⟨c2, false, true⟩ : CredResult) =
                  Except.ok r := hr
              injection hr2 with hr2
              subst hr2
              constructor
              · intro hx; exact Bool.noConfusion hx
              · rintro ⟨hx1, hx2⟩
                injection hx1 with hx1
                rw [← hx1] at hx2
                exact Bool.noConfusion hx2

theorem credential_flow_refresh_and_persistence_witness :
    service_google_drive (some ⟨false, true, true⟩) (Except.error ())
      ⟨true, false, false⟩ =
      Except.ok ⟨⟨true, false, false⟩, true, true⟩ ∧
    service_youtube (some ⟨false, true, true⟩) (Except.error ())
      ⟨true, false, false⟩ = Except.error () := by
  have h := credential_flow_refresh_and_persistence
    (some ⟨false, true, true⟩) (Except.error ()) ⟨true, false, false⟩
  exact ⟨h.1 ⟨false, true, true⟩ rfl rfl rfl rfl rfl,
    h.2.1 ⟨false, true, true⟩ rfl rfl rfl rfl rfl⟩

/-! ### Lemmas for the subtitle encoding fallback (C7) -/

theorem cp1252MapByte_lt (b : Nat) (h : b < 0x80) :
    cp1252MapByte b = some b := by
  unfold cp1252MapByte
  rw [if_pos h]

theorem cp1252MapByte_hi (b : Nat) (h1 : 0xA0 ≤ b) (h2 : b < 0x100) :
    cp1252MapByte b = some b := by
  unfold cp1252MapByte
  rw [if_neg (by omega), if_neg (by omega), if_neg (by omega), if_pos h2]

theorem cp1252Table_ge : ∀ b < 0xA0, 0x80 ≤ b → 0x80 ≤ cp1252Table b := by
  decide

theorem cp1252MapByte_ge (b v : Nat) (h : 0x80 ≤ b)
    (hm : cp1252MapByte b = some v) : 0x80 ≤ v := by
  unfold cp1252MapByte at hm
  split_ifs at hm with h1 h2 h3 h4
  · exact absurd h1 (by omega)
  · cases Option.some.inj hm
    exact cp1252Table_ge b h3 h
  · cases Option.some.inj hm
    exact h

theorem decodeCp1252Ignore_cons_lt (b : Nat) (rest : List Nat)
    (h : b < 0x80) :
    decodeCp1252Ignore (b :: rest) = b :: decodeCp1252Ignore rest := by
  simp [decodeCp1252Ignore, List.filterMap_cons, cp1252MapByte_lt b h]

theorem decodeCp1252Ignore_cons_hi (b : Nat) (rest : List Nat)
    (h1 : 0xA0 ≤ b) (h2 : b < 0x100) :
    decodeCp1252Ignore (b :: rest) = b :: decodeCp1252Ignore rest := by
  simp [decodeCp1252Ignore, List.filterMap_cons, cp1252MapByte_hi b h1 h2]

theorem decodeCp1252Ignore_append (xs ys : List Nat) :
    decodeCp1252Ignore (xs ++ ys) =
      decodeCp1252Ignore xs ++ decodeCp1252Ignore ys := by
  simp [decodeCp1252Ignore, List.filterMap_append]

theorem decodeCp1252Ignore_mem_ge (xs : List Nat)
    (hxs : ∀ x ∈ xs, 0x80 ≤ x) :
    ∀ v ∈ decodeCp1252Ignore xs, 0x80 ≤ v := by
  intro v hv
  obtain ⟨x, hx, hmap⟩ := List.mem_filterMap.mp hv
  exact cp1252MapByte_ge x v (hxs x hx) hmap

/-- Success characterization of `utf8DecodeOne`: the lead byte is in
`[0xC2, 0xF4]`, the codepoint is at least `0x80`, and the consumed
continuation bytes form a non-empty prefix of the input, all in
`[0x80, 0xC0)`. -/
theorem utf8DecodeOne_spec : ∀ (bs : List Nat) (b c : Nat)
    (rest : List Nat), utf8DecodeOne b bs = some (c, rest) →
    0xC2 ≤ b ∧ b ≤ 0xF4 ∧ 0x80 ≤ c ∧
    ∃ tail, bs = tail ++ rest ∧ tail ≠ [] ∧
      ∀ x ∈ tail, 0x80 ≤ x ∧ x < 0xC0 := by
  intro bs
  match bs with
  | [] =>
    intro b c rest h
    simp [utf8DecodeOne] at h
  | [b1] =>
    intro b c rest h
    simp only [utf8DecodeOne] at h
    split_ifs at h with h1
    · rw [Option.some.injEq, Prod.mk.injEq] at h
      obtain ⟨rfl, rfl⟩ := h
      obtain ⟨hl, hc⟩ := h1
      have hl2 : 0xC2 ≤ b ∧ b ≤ 0xDF := hl
      have hc2 : 0x80 ≤ b1 ∧ b1 < 0xC0 := hc
      refine ⟨by omega, by omega, ?_, [b1], rfl, by simp, ?_⟩
      · simp only [cp2]; omega
      · intro x hx
        simp only [List.mem_singleton] at hx
        subst hx
        exact hc2
  | [b1, b2] =>
    intro b c rest h
    simp only [utf8DecodeOne] at h
    split_ifs at h with h1 h2
    · rw [Option.some.injEq, Prod.mk.injEq] at h
      obtain ⟨rfl, rfl⟩ := h
      obtain ⟨hl, hc⟩ := h1
      have hl2 : 0xC2 ≤ b ∧ b ≤ 0xDF := hl
      have hc2 : 0x80 ≤ b1 ∧ b1 < 0xC0 := hc
      refine ⟨by omega, by omega, ?_, [b1], rfl, by simp, ?_⟩
      · simp only [cp2]; omega
      · intro x hx
        simp only [List.mem_singleton] at hx
        subst hx
        exact hc2
    · rw [Option.some.injEq, Prod.mk.injEq] at h
      obtain ⟨rfl, rfl⟩ := h
      obtain ⟨hv, hc2⟩ := h2
      have hb2 : 0x80 ≤ b2 ∧ b2 < 0xC0 := hc2
      have hb1 : (0xE0 ≤ b ∧ b ≤ 0xEF) ∧ 0x80 ≤ b1 ∧ b1 < 0xC0 ∧
          0x80 ≤ cp3 b b1 b2 := by
        simp only [cp3]
        rcases hv with ⟨rfl, hx1, hx2⟩ | ⟨hx1, hx2, hx3⟩ |
          ⟨rfl, hx1, hx2⟩ | ⟨hx1, hx2, hx3⟩
        · exact ⟨⟨by omega, by omega⟩, by omega, by omega, by omega⟩
        · have hx3b : 0x80 ≤ b1 ∧ b1 < 0xC0 := hx3
          exact ⟨⟨by omega, by omega⟩, by omega, by omega, by omega⟩
        · exact ⟨⟨by omega, by omega⟩, by omega, by omega, by omega⟩
        · have hx3b : 0x80 ≤ b1 ∧ b1 < 0xC0 := hx3
          exact ⟨⟨by omega, by omega⟩, by omega, by omega, by omega⟩
      refine ⟨by omega, by omega, hb1.2.2.2, [b1, b2], rfl, by simp, ?_⟩
      intro x hx
      rcases List.mem_pair.mp hx with rfl | rfl
      · exact ⟨hb1.2.1, hb1.2.2.1⟩
      · exact hb2
  | b1 :: b2 :: b3 :: rest0 =>
    intro b c rest h
    simp only [utf8DecodeOne] at h
    split_ifs at h with h1 h2 h3
    · rw [Option.some.injEq, Prod.mk.injEq] at h
      obtain ⟨rfl, rfl⟩ := h
      obtain ⟨hl, hc⟩ := h1
      have hl2 : 0xC2 ≤ b ∧ b ≤ 0xDF := hl
      have hc2 : 0x80 ≤ b1 ∧ b1 < 0xC0 := hc
      refine ⟨by omega, by omega, ?_, [b1], rfl, by simp, ?_⟩
      · simp only [cp2]; omega
      · intro x hx
        simp only [List.mem_singleton] at hx
        subst hx
        exact hc2
    · rw [Option.some.injEq, Prod.mk.injEq] at h
      obtain ⟨rfl, rfl⟩ := h
      obtain ⟨hv, hc2⟩ := h2
      have hb2 : 0x80 ≤ b2 ∧ b2 < 0xC0 := hc2
      have hb1 : (0xE0 ≤ b ∧ b ≤ 0xEF) ∧ 0x80 ≤ b1 ∧ b1 < 0xC0 ∧
          0x80 ≤ cp3 b b1 b2 := by
        simp only [cp3]
        rcases hv with ⟨rfl, hx1, hx2⟩ | ⟨hx1, hx2, hx3⟩ |
          ⟨rfl, hx1, hx2⟩ | ⟨hx1, hx2, hx3⟩
        · exact ⟨⟨by omega, by omega⟩, by omega, by omega, by omega⟩
        · have hx3b : 0x80 ≤ b1 ∧ b1 < 0xC0 := hx3
          exact ⟨⟨by omega, by omega⟩, by omega, by omega, by omega⟩
        · exact ⟨⟨by omega, by omega⟩, by omega, by omega, by omega⟩
        · have hx3b : 0x80 ≤ b1 ∧ b1 < 0xC0 := hx3
          exact ⟨⟨by omega, by omega⟩, by omega, by omega, by omega⟩
      refine ⟨by omega, by omega, hb1.2.2.2, [b1, b2], rfl, by simp, ?_⟩
      intro x hx
      rcases List.mem_pair.mp hx with rfl | rfl
      · exact ⟨hb1.2.1, hb1.2.2.1⟩
      · exact hb2
    · rw [Option.some.injEq, Prod.mk.injEq] at h
      obtain ⟨rfl, rfl⟩ := h
      obtain ⟨hv, hc2, hc3⟩ := h3
      have hb2 : 0x80 ≤ b2 ∧ b2 < 0xC0 := hc2
      have hb3 : 0x80 ≤ b3 ∧ b3 < 0xC0 := hc3
      have hb1 : (0xF0 ≤ b ∧ b ≤ 0xF4) ∧ 0x80 ≤ b1 ∧ b1 < 0xC0 ∧
          0x80 ≤ cp4 b b1 b2 b3 := by
        simp only [cp4]
        rcases hv with ⟨rfl, hx1, hx2⟩ | ⟨hx1, hx2, hx3⟩ | ⟨rfl, hx1, hx2⟩
        · exact ⟨⟨by omega, by omega⟩, by omega, by omega, by omega⟩
        · have hx3b : 0x80 ≤ b1 ∧ b1 < 0xC0 := hx3
          exact ⟨⟨by omega, by omega⟩, by omega, by omega, by omega⟩
        · exact ⟨⟨by omega, by omega⟩, by omega, by omega, by omega⟩
      refine ⟨by omega, by omega, hb1.2.2.2, [b1, b2, b3], rfl, by simp, ?_⟩
      intro x hx
      simp only [List.mem_cons, List.mem_singleton, List.not_mem_nil,
        or_false] at hx
      rcases hx with rfl | rfl | rfl
      · exact ⟨hb1.2.1, hb1.2.2.1⟩
      · exact hb2
      · exact hb3

/-- The fueled UTF-8 loop relates its output to the windows-1252
decoding of the same bytes via `Mangle`. -/
theorem utf8DecodeLoop_mangle : ∀ (fuel : Nat) (bs cs : List Nat),
    utf8DecodeLoop fuel bs = some cs →
    Mangle cs (decodeCp1252Ignore bs) := by
  intro fuel
  induction fuel with
  | zero =>
    intro bs cs h
    cases bs with
    | nil =>
      cases Option.some.inj h
      exact Mangle.nil
    | cons b rest => cases h
  | succ n ih =>
    intro bs cs h
    cases bs with
    | nil =>
      cases Option.some.inj h
      exact Mangle.nil
    | cons b rest =>
      simp only [utf8DecodeLoop] at h
      by_cases h1 : b < 0x80
      · rw [if_pos h1] at h
        obtain ⟨cs2, hr, rfl⟩ := Option.map_eq_some'.mp h
        rw [decodeCp1252Ignore_cons_lt b rest h1]
        exact Mangle.ascii b h1 (ih rest cs2 hr)
      · rw [if_neg h1] at h
        cases hone : utf8DecodeOne b rest with
        | none => rw [hone] at h; cases h
        | some p =>
          obtain ⟨c, rest2⟩ := p
          rw [hone] at h
          obtain ⟨cs2, hr, rfl⟩ := Option.map_eq_some'.mp h
          obtain ⟨hb1, hb2, hcp, tail, rfl, htne, htail⟩ :=
            utf8DecodeOne_spec rest b c rest2 hone
          have hsplit : decodeCp1252Ignore (b :: (tail ++ rest2)) =
              decodeCp1252Ignore (b :: tail) ++
                decodeCp1252Ignore rest2 := by
            rw [show b :: (tail ++ rest2) = (b :: tail) ++ rest2 from rfl]
            exact decodeCp1252Ignore_append _ _
          rw [hsplit]
          refine Mangle.multi c (decodeCp1252Ignore (b :: tail)) hcp ?_ ?_
            (ih rest2 cs2 hr)
          · rw [decodeCp1252Ignore_cons_hi b tail (by omega) (by omega)]
            simp
          · intro x hx
            refine decodeCp1252Ignore_mem_ge (b :: tail) ?_ x hx
            intro y hy
            rcases List.mem_cons.mp hy with rfl | hy2
            · omega
            · exact (htail y hy2).1

theorem utf8Decode_mangle (bs cs : List Nat) (h : utf8Decode bs = some cs) :
    Mangle cs (decodeCp1252Ignore bs) :=
  utf8DecodeLoop_mangle bs.length bs cs h

theorem splitNl_ne_nil (cs : List Nat) : splitNl cs ≠ [] := by
  cases cs with
  | nil => simp [splitNl]
  | cons c cs =>
    simp only [splitNl]
    split_ifs <;> simp

theorem splitNl_cons_nl (cs : List Nat) :
    splitNl (10 :: cs) = [] :: splitNl cs := by
  simp [splitNl]

theorem splitNl_cons_other (c : Nat) (cs : List Nat) (h : c ≠ 10) :
    splitNl (c :: cs) =
      (c :: (splitNl cs).headD []) :: (splitNl cs).tail := by
  simp [splitNl, h]

/-- `splitNl` of a cons-free-of-newlines prefix prepends it to the
first line. -/
theorem splitNl_append_no_nl (img : List Nat)
    (himg : ∀ x ∈ img, x ≠ 10) (ms : List Nat) :
    splitNl (img ++ ms) =
      (img ++ (splitNl ms).headD []) :: (splitNl ms).tail := by
  induction img with
  | nil =>
    simp only [List.nil_append]
    cases h : splitNl ms with
    | nil => exact absurd h (splitNl_ne_nil ms)
    | cons l ls => simp
  | cons x img ih =>
    have hx : x ≠ 10 := himg x (List.mem_cons_self x img)
    have ih2 := ih fun y hy => himg y (List.mem_cons_of_mem x hy)
    rw [List.cons_append, splitNl_cons_other x _ hx, ih2]
    simp

/-- A `Forall₂` relation forces emptiness to agree. -/
theorem forall₂_nil_iff {α β : Type} {R : α → β → Prop} {x : List α}
    {y : List β} (h : List.Forall₂ R x y) : x = [] ↔ y = [] := by
  cases h <;> simp

/-- Lines of the UTF-8 decoding and of the windows-1252 decoding of
the same bytes correspond pointwise under `LineRel`. -/
theorem mangle_splitNl {cs ms : List Nat} (h : Mangle cs ms) :
    List.Forall₂ LineRel (splitNl cs) (splitNl ms) := by
  induction h with
  | nil =>
    exact List.Forall₂.cons ⟨Iff.rfl, fun _ => rfl⟩ List.Forall₂.nil
  | ascii b hb hm ih =>
    rename_i cs' ms'
    by_cases hb10 : b = 10
    · subst hb10
      rw [splitNl_cons_nl, splitNl_cons_nl]
      exact List.Forall₂.cons ⟨Iff.rfl, fun _ => rfl⟩ ih
    · rw [splitNl_cons_other b _ hb10, splitNl_cons_other b _ hb10]
      obtain ⟨l, ls, hs⟩ : ∃ l ls, splitNl cs' = l :: ls := by
        cases hz : splitNl cs' with
        | nil => exact absurd hz (splitNl_ne_nil cs')
        | cons l ls => exact ⟨l, ls, rfl⟩
      obtain ⟨l2, ls2, hs2⟩ : ∃ l ls, splitNl ms' = l :: ls := by
        cases hz : splitNl ms' with
        | nil => exact absurd hz (splitNl_ne_nil ms')
        | cons l ls => exact ⟨l, ls, rfl⟩
      rw [hs, hs2]
      rw [hs, hs2] at ih
      cases ih with
      | cons hrel htail =>
        simp only [List.headD_cons, List.tail_cons]
        refine List.Forall₂.cons ⟨by simp, ?_⟩ htail
        intro hall
        simp only [List.all_cons, Bool.and_eq_true] at hall
        rw [hrel.2 hall.2]
  | multi c img hc himgne himg hm ih =>
    rename_i cs' ms'
    have hc10 : c ≠ 10 := by omega
    rw [splitNl_cons_other c _ hc10]
    rw [splitNl_append_no_nl img
      (fun x hx => by have := himg x hx; omega) ms']
    obtain ⟨l, ls, hs⟩ : ∃ l ls, splitNl cs' = l :: ls := by
      cases hz : splitNl cs' with
      | nil => exact absurd hz (splitNl_ne_nil cs')
      | cons l ls => exact ⟨l, ls, rfl⟩
    obtain ⟨l2, ls2, hs2⟩ : ∃ l ls, splitNl ms' = l :: ls := by
      cases hz : splitNl ms' with
      | nil => exact absurd hz (splitNl_ne_nil ms')
      | cons l ls => exact ⟨l, ls, rfl⟩
    rw [hs, hs2]
    rw [hs, hs2] at ih
    cases ih with
    | cons hrel htail =>
      simp only [List.headD_cons, List.tail_cons]
      refine List.Forall₂.cons ⟨?_, ?_⟩ htail
      · constructor
        · intro hfalse; cases hfalse
        · intro hfalse
          exact absurd hfalse (by simp [himgne])
      · intro hall
        simp only [List.all_cons, Bool.and_eq_true, decide_eq_true_eq]
          at hall
        omega

theorem srtBlocksAux_rel {ls ls' : List (List Nat)}
    (h : List.Forall₂ LineRel ls ls') :
    List.Forall₂ (List.Forall₂ LineRel)
      (srtBlocksAux ls).1 (srtBlocksAux ls').1 ∧
    List.Forall₂ LineRel (srtBlocksAux ls).2 (srtBlocksAux ls').2 := by
  induction h with
  | nil => exact ⟨List.Forall₂.nil, List.Forall₂.nil⟩
  | cons hrel htail ih =>
    rename_i a b as bs
    simp only [srtBlocksAux]
    by_cases ha : a = []
    · have hb : b = [] := (hrel.1).mp ha
      rw [if_pos ha, if_pos hb]
      by_cases hcur : (srtBlocksAux as).2 = []
      · have hcur2 : (srtBlocksAux bs).2 = [] :=
          (forall₂_nil_iff ih.2).mp hcur
        rw [if_pos hcur, if_pos hcur2]
        exact ⟨ih.1, List.Forall₂.nil⟩
      · have hcur2 : (srtBlocksAux bs).2 ≠ [] := fun hx =>
          hcur ((forall₂_nil_iff ih.2).mpr hx)
        rw [if_neg hcur, if_neg hcur2]
        exact ⟨List.Forall₂.cons ih.2 ih.1, List.Forall₂.nil⟩
    · have hb : b ≠ [] := fun hx => ha (hrel.1.mpr hx)
      rw [if_neg ha, if_neg hb]
      exact ⟨ih.1, List.Forall₂.cons hrel ih.2⟩

theorem srtBlocks_rel {ls ls' : List (List Nat)}
    (h : List.Forall₂ LineRel ls ls') :
    List.Forall₂ (List.Forall₂ LineRel) (srtBlocks ls) (srtBlocks ls') := by
  obtain ⟨h1, h2⟩ := srtBlocksAux_rel h
  unfold srtBlocks
  by_cases hcur : (srtBlocksAux ls).2 = []
  · have hcur2 : (srtBlocksAux ls').2 = [] := (forall₂_nil_iff h2).mp hcur
    rw [if_pos hcur, if_pos hcur2]
    exact h1
  · have hcur2 : (srtBlocksAux ls').2 ≠ [] := fun hx =>
      hcur ((forall₂_nil_iff h2).mpr hx)
    rw [if_neg hcur, if_neg hcur2]
    exact List.Forall₂.cons h2 h1

/-- A successfully parsed timestamp line contains only ASCII
codepoints. -/
theorem parseTimestampLineCp_ascii (ts : List Nat)
    (p : SubRipTime × SubRipTime) (h : parseTimestampLineCp ts = some p) :
    ts.all (fun c => decide (c < 0x80)) = true := by
  unfold parseTimestampLineCp at h
  split_ifs at h with hall
  rw [List.all_eq_true] at hall ⊢
  intro x hx
  have h2 := hall x hx
  simp only [decide_eq_true_eq] at h2 ⊢
  have h3 : (48 ≤ x ∧ x ≤ 57) ∨ x = 58 ∨ x = 44 ∨ x = 32 ∨ x = 45 ∨
      x = 62 := h2
  rcases h3 with h4 | rfl | rfl | rfl | rfl | rfl <;> omega

/-- An all-digit index line contains only ASCII codepoints. -/
theorem isDigit_all_ascii (idx : List Nat)
    (h : idx.all isDigitCp = true) :
    idx.all (fun c => decide (c < 0x80)) = true := by
  rw [List.all_eq_true] at h ⊢
  intro x hx
  have h2 := h x hx
  simp only [isDigitCp, Bool.and_eq_true, decide_eq_true_eq] at h2
  simp only [decide_eq_true_eq]
  omega

/-- A block that parses as a cue still parses after the
windows-1252 mangling: its index and timestamp lines are all-ASCII and
hence byte-identical. -/
theorem parseBlockCp_preserved {bl bl2 : List (List Nat)}
    (h : List.Forall₂ LineRel bl bl2) (cue : SrtCue)
    (hp : parseBlockCp bl = some cue) :
    (parseBlockCp bl2).isSome = true := by
  cases h with
  | nil => simp [parseBlockCp] at hp
  | cons h1 htail =>
    rename_i idx idx2 rest1 rest12
    cases htail with
    | nil => simp [parseBlockCp] at hp
    | cons h2 htail2 =>
      rename_i ts ts2 rest2 rest22
      simp only [parseBlockCp] at hp ⊢
      split_ifs at hp with hidx
      obtain ⟨p, hts, -⟩ := Option.map_eq_some'.mp hp
      have hidxA := isDigit_all_ascii idx hidx.2
      have htsA := parseTimestampLineCp_ascii ts p hts
      rw [h1.2 hidxA, h2.2 htsA, if_pos hidx, hts]
      rfl

/-- Pointwise block preservation bounds the parsed cue count. -/
theorem filterMap_parse_le {bls bls2 : List (List (List Nat))}
    (h : List.Forall₂ (List.Forall₂ LineRel) bls bls2) :
    (bls.filterMap parseBlockCp).length ≤
      (bls2.filterMap parseBlockCp).length := by
  induction h with
  | nil => simp
  | cons hrel htail ih =>
    rename_i bl bl2 bs bs2
    cases hp : parseBlockCp bl with
    | none =>
      rw [List.filterMap_cons_none hp]
      cases hq : parseBlockCp bl2 with
      | none =>
        rw [List.filterMap_cons_none hq]
        exact ih
      | some cue2 =>
        rw [List.filterMap_cons_some hq]
        simp only [List.length_cons]
        omega
    | some cue =>
      rw [List.filterMap_cons_some hp]
      have hq := parseBlockCp_preserved hrel cue hp
      obtain ⟨cue2, hq2⟩ := Option.isSome_iff_exists.mp hq
      rw [List.filterMap_cons_some hq2]
      simp only [List.length_cons]
      omega

/-- C7: the subtitle-reading step of `process_books` falls back to
`open_srt_with_encoding` (windows-1252 with invalid bytes ignored)
exactly when default (UTF-8) decoding raises, and on a well-formed
default-encoded file the fallback path recovers at least as many cues
as the default path would. -/
theorem subtitle_encoding_fallback (fileBytes : List Nat) :
    (utf8Decode fileBytes = none →
      readSubtitles fileBytes = open_srt_with_encoding fileBytes) ∧
    (∀ text, utf8Decode fileBytes = some text →
      (parseSrtCp text).length ≤
        (open_srt_with_encoding fileBytes).length) := by
  constructor
  · intro h
    unfold readSubtitles
    rw [h]
  · intro text h
    have hm := utf8Decode_mangle fileBytes text h
    have hlines := mangle_splitNl hm
    have hblocks := srtBlocks_rel hlines
    exact filterMap_parse_le hblocks

theorem subtitle_encoding_fallback_witness :
    readSubtitles [0xFF] = open_srt_with_encoding [0xFF] ∧
    (parseSrtCp [49, 10, 48, 48, 58, 48, 48, 58, 48, 48, 44, 48, 48,
      48, 32, 45, 45, 62, 32, 48, 48, 58, 48, 48, 58, 48, 50, 44, 48,
      48, 48, 10, 0xE9, 10]).length ≤
    (open_srt_with_encoding [49, 10, 48, 48, 58, 48, 48, 58, 48, 48,
      44, 48, 48, 48, 32, 45, 45, 62, 32, 48, 48, 58, 48, 48, 58, 48,
      50, 44, 48, 48, 48, 10, 0xC3, 0xA9, 10]).length := by
  constructor
  · exact (subtitle_encoding_fallback [0xFF]).1 (by decide)
  · exact (subtitle_encoding_fallback [49, 10, 48, 48, 58, 48, 48, 58,
      48, 48, 44, 48, 48, 48, 32, 45, 45, 62, 32, 48, 48, 58, 48, 48,
      58, 48, 50, 44, 48, 48, 48, 10, 0xC3, 0xA9, 10]).2
      [49, 10, 48, 48, 58, 48, 48, 58, 48, 48, 44, 48, 48, 48, 32, 45,
       45, 62, 32, 48, 48, 58, 48, 48, 58, 48, 50, 44, 48, 48, 48, 10,
       0xE9, 10] (by decide)
